import Mathlib

/-!
Verification of the evacuation-time simulation (rooms.py, shitty_simulation.py).

The Python code is shallowly embedded: floats become real numbers, Python
ints become integers, the in-place mutation of room objects becomes explicit
state threading (rooms in this development are compared by value; the example
scenarios in the repository give every room a distinct id, under which value
equality coincides with Python object identity), and the unbounded while loop
of find_fastest_evacuation becomes a fuel-indexed loop returning none when the
fuel runs out.
-/

noncomputable section

open scoped Classical

/-- Planar point, as in the Python type alias Point = Tuple[float, float]. -/
abbrev Point : Type := ℝ × ℝ

/-- Euclidean distance, the Python helper _distance (math.hypot). -/
def _distance (a b : Point) : ℝ :=
  Real.sqrt ((a.1 - b.1) ^ 2 + (a.2 - b.2) ^ 2)

/-- Counts of each occupant type in a room (rooms.OccupantInfo). -/
structure OccupantInfo where
  adults : ℤ
  children : ℤ
  unabled : ℤ

/-- Simple door located at a point on the plane (rooms.Door). -/
structure Door where
  x : ℝ
  y : ℝ

/-- Door.position. -/
def Door.position (d : Door) : Point := (d.x, d.y)

/-- Axis-aligned rectangular room (rooms.RoomGeometry / RectRoomShape). -/
structure RectRoomShape where
  bottom_left : Point
  top_right : Point

/-- RoomGeometry.center. -/
def RectRoomShape.center (s : RectRoomShape) : Point :=
  ((s.bottom_left.1 + s.top_right.1) / 2, (s.bottom_left.2 + s.top_right.2) / 2)

/-- A room / node in the evacuation graph (rooms.RoomNode). -/
structure RoomNode where
  id : String
  base_clear_time : ℝ
  occupants : OccupantInfo
  shape : RectRoomShape
  doors : List Door

/-- RoomNode.clearance_time: ceil(base_clear_time + 5 * children). -/
def RoomNode.clearance_time (r : RoomNode) : ℝ :=
  ((⌈r.base_clear_time + 5 * (r.occupants.children : ℝ)⌉ : ℤ) : ℝ)

/-- RoomNode.get_door_positions. -/
def RoomNode.get_door_positions (r : RoomNode) : List Point :=
  r.doors.map Door.position

/-- Exit node where unabled occupants must be brought (rooms.ExitNode). -/
structure ExitNode where
  id : String
  x : ℝ
  y : ℝ

/-- ExitNode.position. -/
def ExitNode.position (e : ExitNode) : Point := (e.x, e.y)

/-- Per-responder state (shitty_simulation.ResponderState).  The state field
is the Python string tag: one of "idle", "moving", "clearing",
"evacuating_unabled". -/
structure ResponderState where
  state : String
  time_remaining : ℝ
  position : Point
  target_room : Option RoomNode
  target_door : Option Point

/-- The candidate access points of a room in _choose_nearest_room:
room.get_door_positions() or [room.shape.center] (Python "or": the center is
used exactly when the door list is empty). -/
def doorCandidates (room : RoomNode) : List Point :=
  match room.get_door_positions with
  | [] => [room.shape.center]
  | ps => ps

/-- One update step of the running best in the nested scan of
_choose_nearest_room.  Python initializes best_dist = inf and best_room =
best_door = None; the accumulator none plays the role of that initial
sentinel (any real distance beats inf, and the scan keeps the incumbent on
ties because the comparison is strict). -/
def updBest (pos : Point) (acc : Option (RoomNode × Point × ℝ)) (c : RoomNode × Point) :
    Option (RoomNode × Point × ℝ) :=
  match acc with
  | none => some (c.1, c.2, _distance pos c.2)
  | some (br, bd, bdist) =>
    if _distance pos c.2 < bdist then some (c.1, c.2, _distance pos c.2)
    else some (br, bd, bdist)

/-- Pick the nearest uncleared room and door for a responder
(shitty_simulation._choose_nearest_room).  The nested for-loops over rooms
then doors are the nested folds below.  Purely a query: it mutates nothing.
Returns (room, door_position, travel_time); the none-triple when rooms_left
is empty. -/
def _choose_nearest_room (responder : ResponderState) (rooms_left : List RoomNode)
    (speed : ℝ) : Option RoomNode × Option Point × ℝ :=
  match rooms_left.foldl
      (fun acc room =>
        (doorCandidates room).foldl (fun a d => updBest responder.position a (room, d)) acc)
      none with
  | none => (none, none, 0)
  | some (r, d, bdist) => (some r, some d, if 0 < speed then bdist / speed else 0)

/-- Return (exit_node, distance) for the nearest exit to source
(shitty_simulation._nearest_exit); (none, 0) when there are no exits.  As in
updBest, the accumulator none models the best_dist = inf initial sentinel. -/
def _nearest_exit (source : Point) (exits : List ExitNode) : Option ExitNode × ℝ :=
  match exits.foldl
      (fun acc ex =>
        match acc with
        | none => some (ex, _distance source ex.position)
        | some (bex, bdist) =>
          if _distance source ex.position < bdist then some (ex, _distance source ex.position)
          else some (bex, bdist))
      none with
  | none => (none, 0)
  | some (ex, d) => (some ex, d)

/-- Total extra time to evacuate all unabled occupants of a room to the
nearest exit, and the responder's final position
(shitty_simulation._unabled_evac_time). -/
def _unabled_evac_time (num_unabled : ℤ) (door_position : Point) (exits : List ExitNode)
    (responder_speed : ℝ) : ℝ × Point :=
  if num_unabled ≤ 0 ∨ responder_speed ≤ 0 ∨ exits = [] then (0, door_position)
  else
    match _nearest_exit door_position exits with
    | (none, _) => (0, door_position)
    | (some exit_node, dist) =>
      if num_unabled = 1 then (2 * dist / responder_speed, exit_node.position)
      else ((3 * (num_unabled : ℝ) - 1) * dist / responder_speed, exit_node.position)

/-- The zeroing of a room's unabled count, room.occupants.unabled = 0,
rendered functionally. -/
def zeroUnabled (r : RoomNode) : RoomNode :=
  { r with occupants := { r.occupants with unabled := 0 } }

/-- Test whether a responder counts as active: the Python membership test
r.state in ("moving", "clearing", "evacuating_unabled"). -/
def isActive (r : ResponderState) : Bool :=
  ["moving", "clearing", "evacuating_unabled"].contains r.state

/-- Global simulation state: the remaining-rooms pool, the responder list,
and the current global time. -/
structure SimState where
  remaining : List RoomNode
  responders : List ResponderState
  time : ℝ

/-- The while-loop guard, negated: the loop of find_fastest_evacuation exits
normally when no rooms remain and every responder is idle. -/
def loopDone (st : SimState) : Prop :=
  st.remaining = [] ∧ ∀ r ∈ st.responders, r.state = "idle"

/-- Step 1 of the loop body: assign idle responders, in list order, to rooms
from the available pool, threading the pool so that a room claimed in this
pass is not handed to a later responder (the Python filter rm is not room,
rendered with value inequality). -/
def assignResponders (speed : ℝ) :
    List ResponderState → List RoomNode → List ResponderState × List RoomNode
  | [], avail => ([], avail)
  | r :: rest, avail =>
    if r.state = "idle" ∧ avail ≠ [] then
      match _choose_nearest_room r avail speed with
      | (some room, some door, travel) =>
        let r2 : ResponderState :=
          { r with state := "moving", target_room := some room, target_door := some door,
                   time_remaining := travel }
        let res := assignResponders speed rest (avail.filter fun rm => decide (rm ≠ room))
        (r2 :: res.1, res.2)
      | (_, _, _) =>
        -- the Python guard: if room is None, continue
        let res := assignResponders speed rest avail
        (r :: res.1, res.2)
    else
      let res := assignResponders speed rest avail
      (r :: res.1, res.2)

/-- Rooms already claimed by a non-idle responder (the already_taken list
of the driver). -/
def alreadyTaken (resps : List ResponderState) : List RoomNode :=
  resps.filterMap fun r => if isActive r then r.target_room else none

/-- The assignment sub-pass of one loop iteration. -/
def stepAssign (speed : ℝ) (st : SimState) : SimState :=
  let taken := alreadyTaken st.responders
  let avail := st.remaining.filter fun room => decide (room ∉ taken)
  { st with responders := (assignResponders speed st.responders avail).1 }

/-- Minimum time_remaining over a list of responders (Python min over the
active list; 0 for the empty list, which the driver never queries). -/
def minRemaining : List ResponderState → ℝ
  | [] => 0
  | r :: rs => rs.foldl (fun m x => min m x.time_remaining) r.time_remaining

/-- Step 4 of the loop body: process, in list order, every responder whose
countdown has reached zero within the 1e-9 tolerance, threading the
remaining-rooms pool.  The in-place mutation room.occupants.unabled = 0 is
rendered by replacing the room value in the pool and in the responder's own
target reference (no other responder aliases the room, by the room-claim
invariant). -/
def processResponders (exits : List ExitNode) (speed : ℝ) :
    List ResponderState → List RoomNode → List ResponderState × List RoomNode
  | [], remaining => ([], remaining)
  | r :: rest, remaining =>
    if 1e-9 < r.time_remaining then
      -- still busy
      let res := processResponders exits speed rest remaining
      (r :: res.1, res.2)
    else if r.state = "moving" then
      -- Arrived at the target room's door: start clearing.  A moving
      -- responder always has target_door and target_room set (the Python
      -- code relies on this via type: ignore); the defaults are unreachable.
      let r2 : ResponderState :=
        { r with position := r.target_door.getD r.position, state := "clearing",
                 time_remaining := (r.target_room.map RoomNode.clearance_time).getD 0 }
      let res := processResponders exits speed rest remaining
      (r2 :: res.1, res.2)
    else if r.state = "clearing" then
      match r.target_room with
      | none =>
        -- defensive branch in the source ("Shouldn't happen, but just be safe")
        let r2 : ResponderState := { r with state := "idle" }
        let res := processResponders exits speed rest remaining
        (r2 :: res.1, res.2)
      | some room =>
        if 0 < room.occupants.unabled ∧ exits ≠ [] then
          let evac := _unabled_evac_time room.occupants.unabled r.position exits speed
          let room2 := zeroUnabled room
          let remaining2 := remaining.map fun x => if x = room then room2 else x
          let r2 : ResponderState :=
            { r with position := evac.2, state := "evacuating_unabled",
                     time_remaining := evac.1, target_room := some room2 }
          let res := processResponders exits speed rest remaining2
          (r2 :: res.1, res.2)
        else
          -- no unabled or no exits configured: room is now done
          let remaining2 := remaining.erase room
          let r2 : ResponderState :=
            { r with state := "idle", time_remaining := 0, target_room := none,
                     target_door := none }
          let res := processResponders exits speed rest remaining2
          (r2 :: res.1, res.2)
    else if r.state = "evacuating_unabled" then
      -- finished all trips for unabled occupants in this room
      let remaining2 := match r.target_room with
        | some room => remaining.erase room
        | none => remaining
      let r2 : ResponderState :=
        { r with state := "idle", time_remaining := 0, target_room := none,
                 target_door := none }
      let res := processResponders exits speed rest remaining2
      (r2 :: res.1, res.2)
    else
      -- idle responder with zero countdown: nothing to do
      let res := processResponders exits speed rest remaining
      (r :: res.1, res.2)

/-- Steps 2 to 4 of one loop iteration on the post-assignment state: find the
next event time among active responders, advance global time, decrement
active countdowns, then process finished responders. -/
def stepRun (exits : List ExitNode) (speed : ℝ) (st1 : SimState) : SimState :=
  let dt := minRemaining (st1.responders.filter isActive)
  let advanced := st1.responders.map fun r =>
    if isActive r then { r with time_remaining := r.time_remaining - dt } else r
  let res := processResponders exits speed advanced st1.remaining
  { remaining := res.2, responders := res.1, time := st1.time + dt }

/-- One full iteration of the driver loop as a state transformer (the
identity once the loop has exited, so iterates describe every point of the
loop). -/
def stepSim (exits : List ExitNode) (speed : ℝ) (st : SimState) : SimState :=
  if loopDone st then st
  else
    let st1 := stepAssign speed st
    if st1.responders.filter isActive = [] then st1
    else stepRun exits speed st1

/-- The driver loop of find_fastest_evacuation, indexed by fuel; none means
the fuel ran out before the loop exited.  Returns the final global time both
on normal exit (no rooms remain, all responders idle) and on the silent
break when no responder is active while rooms remain. -/
def simLoop (exits : List ExitNode) (speed : ℝ) : ℕ → SimState → Option ℝ
  | 0, _ => none
  | fuel + 1, st =>
    if loopDone st then some st.time
    else
      let st1 := stepAssign speed st
      if st1.responders.filter isActive = [] then some st1.time
      else simLoop exits speed fuel (stepRun exits speed st1)

/-- The initial responder list: n idle responders at the start position. -/
def initResponders (n : ℕ) (start : Point) : List ResponderState :=
  List.replicate n
    { state := "idle", time_remaining := 0, position := start, target_room := none,
      target_door := none }

/-- The initial simulation state (remaining_rooms = list(rooms), a private
copy of the caller's list). -/
def initState (n : ℕ) (rooms : List RoomNode) (start : Point) : SimState :=
  { remaining := rooms, responders := initResponders n start, time := 0 }

/-- shitty_simulation.find_fastest_evacuation.  The speed check raises
ValueError in Python, rendered as an error value; ok (some t) is a normal
return of t; ok none means the given fuel did not cover the whole run. -/
def find_fastest_evacuation (fuel : ℕ) (n_responders : ℕ) (rooms : List RoomNode)
    (exits : List ExitNode) (responder_speed : ℝ) (start_position : Point) :
    Except String (Option ℝ) :=
  if responder_speed ≤ 0 then Except.error "responder_speed must be > 0"
  else Except.ok (simLoop exits responder_speed fuel
    (initState n_responders rooms start_position))

/-! ### Concrete scenario data and evaluation helpers -/

/-- The end-to-end scenario room: base clearance 15, no children, two
unabled occupants, one door at (2, 0). -/
def roomA : RoomNode :=
  { id := "A", base_clear_time := 15,
    occupants := { adults := 0, children := 0, unabled := 2 },
    shape := { bottom_left := (0, 1), top_right := (4, 3) },
    doors := [{ x := 2, y := 0 }] }

/-- The end-to-end scenario exit at (4, 0), at distance 2 from the door. -/
def exitA : ExitNode := { id := "E1", x := 4, y := 0 }

theorem sqrt_four : Real.sqrt 4 = 2 := by
  rw [show (4 : ℝ) = 2 ^ 2 by norm_num, Real.sqrt_sq (by norm_num)]

theorem dist_start_door : _distance (0, 0) ((2 : ℝ), 0) = 2 := by
  norm_num [_distance]
  exact sqrt_four

theorem dist_door_exit : _distance ((2 : ℝ), 0) exitA.position = 2 := by
  norm_num [_distance, exitA, ExitNode.position]
  exact sqrt_four

theorem nearest_exit_eval : _nearest_exit ((2 : ℝ), 0) [exitA] = (some exitA, 2) := by
  rw [show _nearest_exit ((2 : ℝ), 0) [exitA] =
      (some exitA, _distance ((2 : ℝ), 0) exitA.position) from rfl, dist_door_exit]

/-- Idle responder of the end-to-end scenario at the start position. -/
def r0 : ResponderState :=
  { state := "idle", time_remaining := 0, position := (0, 0), target_room := none,
    target_door := none }

/-- Scenario responder after assignment: moving to the door with travel time 2. -/
def r1 : ResponderState :=
  { state := "moving", time_remaining := 2, position := (0, 0), target_room := some roomA,
    target_door := some (2, 0) }

/-- Scenario responder clearing the room with countdown 15. -/
def r2 : ResponderState :=
  { state := "clearing", time_remaining := 15, position := (2, 0), target_room := some roomA,
    target_door := some (2, 0) }

/-- Scenario responder carrying the unabled occupants, countdown 10, already
standing at the exit. -/
def r3 : ResponderState :=
  { state := "evacuating_unabled", time_remaining := 10, position := (4, 0),
    target_room := some (zeroUnabled roomA), target_door := some (2, 0) }

/-- Scenario responder after the whole room is done. -/
def r4 : ResponderState :=
  { state := "idle", time_remaining := 0, position := (4, 0), target_room := none,
    target_door := none }

theorem evac_eval : _unabled_evac_time 2 ((2 : ℝ), 0) [exitA] 1 = (10, ((4 : ℝ), 0)) := by
  rw [_unabled_evac_time, if_neg (by push_neg; refine ⟨by norm_num, by norm_num, by simp⟩),
    nearest_exit_eval]
  dsimp only
  rw [if_neg (by norm_num)]
  rw [show ExitNode.position exitA = ((4 : ℝ), 0) from rfl]
  norm_num

theorem scenario_assign1 : stepAssign 1 (initState 1 [roomA] (0, 0)) =
    { remaining := [roomA], responders := [r1], time := 0 } := by
  rw [stepAssign]
  rw [show alreadyTaken (initState 1 [roomA] (0, 0)).responders = [] from rfl]
  rw [show ((initState 1 [roomA] (0, 0)).remaining.filter
      fun room => decide (room ∉ ([] : List RoomNode))) = [roomA] by simp [initState]]
  have hchoose : _choose_nearest_room r0 [roomA] 1 = (some roomA, some ((2 : ℝ), 0), 2) := by
    rw [show _choose_nearest_room r0 [roomA] 1 =
        (some roomA, some ((2 : ℝ), 0),
          if (0 : ℝ) < 1 then _distance r0.position ((2 : ℝ), 0) / 1 else 0) from rfl]
    rw [if_pos (by norm_num)]
    rw [show r0.position = ((0 : ℝ), 0) from rfl, dist_start_door]
    norm_num
  rw [show (initState 1 [roomA] (0, 0)).responders = [r0] from rfl]
  rw [assignResponders, if_pos (by refine ⟨rfl, by simp⟩)]
  rw [hchoose]
  dsimp only
  rw [assignResponders]
  simp [initState, r1, r0]

theorem scenario_run1 : stepRun [exitA] 1 { remaining := [roomA], responders := [r1], time := 0 } =
    { remaining := [roomA], responders := [r2], time := 2 } := by
  rw [stepRun]
  rw [show minRemaining (List.filter isActive
      ({ remaining := [roomA], responders := [r1], time := 0 } : SimState).responders) = 2 from rfl]
  norm_num [List.map, processResponders, r1, r2, isActive, RoomNode.clearance_time, roomA,
    SimState.mk.injEq, ResponderState.mk.injEq, Option.getD, List.contains]

theorem scenario_assign2 : stepAssign 1 { remaining := [roomA], responders := [r2], time := 2 } =
    { remaining := [roomA], responders := [r2], time := 2 } := by
  rw [stepAssign]
  rw [show alreadyTaken
      ({ remaining := [roomA], responders := [r2], time := 2 } : SimState).responders
      = [roomA] from rfl]
  norm_num [assignResponders, r2, List.filter, SimState.mk.injEq]

theorem scenario_run2 : stepRun [exitA] 1 { remaining := [roomA], responders := [r2], time := 2 } =
    { remaining := [zeroUnabled roomA], responders := [r3], time := 17 } := by
  rw [stepRun]
  rw [show minRemaining (List.filter isActive
      ({ remaining := [roomA], responders := [r2], time := 2 } : SimState).responders) = 15 from rfl]
  norm_num [List.map, processResponders, r2, r3, isActive, roomA,
    SimState.mk.injEq, ResponderState.mk.injEq, List.contains, evac_eval, zeroUnabled,
    show (("clearing" : String) = "moving") = False by simp]

theorem scenario_assign3 :
    stepAssign 1 { remaining := [zeroUnabled roomA], responders := [r3], time := 17 } =
    { remaining := [zeroUnabled roomA], responders := [r3], time := 17 } := by
  rw [stepAssign]
  rw [show alreadyTaken
      ({ remaining := [zeroUnabled roomA], responders := [r3], time := 17 } : SimState).responders
      = [zeroUnabled roomA] from rfl]
  norm_num [assignResponders, r3, List.filter, SimState.mk.injEq]

theorem scenario_run3 :
    stepRun [exitA] 1 { remaining := [zeroUnabled roomA], responders := [r3], time := 17 } =
    { remaining := [], responders := [r4], time := 27 } := by
  rw [stepRun]
  rw [show minRemaining (List.filter isActive
      ({ remaining := [zeroUnabled roomA], responders := [r3], time := 17 } : SimState).responders)
      = 10 from rfl]
  norm_num [List.map, processResponders, r3, r4, isActive,
    SimState.mk.injEq, ResponderState.mk.injEq, List.contains,
    show (("evacuating_unabled" : String) = "moving") = False by simp,
    show (("evacuating_unabled" : String) = "clearing") = False by simp]

/-! ### Claim theorems -/

/-- Claim C1: for an unabled count U of at least 1, a positive speed, and a
non-empty exit list whose nearest exit to the door sits at distance d, the
unabled-evacuation timing model returns extra time 2d/s when U = 1 and
(3U - 1)d/s when U is larger; the closed form (3U - 1)d/s in fact holds for
every U of at least 1, so the two branches agree at U = 1; and the returned
final position is the nearest exit's position. -/
theorem unabled_evac_closed_form (U : ℤ) (p : Point) (exits : List ExitNode) (s : ℝ)
    (ex : ExitNode) (d : ℝ) (hU : 1 ≤ U) (hs : 0 < s) (hne : exits ≠ [])
    (hx : _nearest_exit p exits = (some ex, d)) :
    (U = 1 → (_unabled_evac_time U p exits s).1 = 2 * d / s) ∧
    (1 < U → (_unabled_evac_time U p exits s).1 = (3 * (U : ℝ) - 1) * d / s) ∧
    (_unabled_evac_time U p exits s).1 = (3 * (U : ℝ) - 1) * d / s ∧
    (_unabled_evac_time U p exits s).2 = ex.position := by
  have key : (_unabled_evac_time U p exits s).1 = (3 * (U : ℝ) - 1) * d / s ∧
      (_unabled_evac_time U p exits s).2 = ex.position := by
    rw [_unabled_evac_time, if_neg (by push_neg; exact ⟨by omega, by linarith, hne⟩), hx]
    dsimp only
    by_cases h1 : U = 1
    · subst h1
      rw [if_pos rfl]
      refine ⟨?_, rfl⟩
      show 2 * d / s = (3 * ((1 : ℤ) : ℝ) - 1) * d / s
      norm_num
    · rw [if_neg h1]
      exact ⟨rfl, rfl⟩
  refine ⟨fun h1 => ?_, fun _ => key.1, key.1, key.2⟩
  subst h1
  rw [key.1]
  norm_num

/-- Witness for C1 at U = 2, door (2, 0), one exit at (4, 0), speed 1:
extra time (3 times 2 - 1) times 2 / 1 = 10, final position the exit. -/
theorem unabled_evac_closed_form_witness :
    (_unabled_evac_time 2 ((2 : ℝ), 0) [exitA] 1).1 = 10 ∧
    (_unabled_evac_time 2 ((2 : ℝ), 0) [exitA] 1).2 = exitA.position := by
  have h := unabled_evac_closed_form 2 ((2 : ℝ), 0) [exitA] 1 exitA 2
    (by norm_num) (by norm_num) (by simp) nearest_exit_eval
  refine ⟨?_, h.2.2.2⟩
  rw [h.2.2.1]
  norm_num

/-- Claim C6: the effective clearance time of a room is the ceiling of the
base clearance duration plus 5 per child; it does not depend on the adult or
unabled counts, collapses to the ceiling of the base duration when there are
no children, and is monotonically non-decreasing in the child count. -/
theorem clearance_time_spec (room : RoomNode) :
    room.clearance_time =
      ((⌈room.base_clear_time + 5 * (room.occupants.children : ℝ)⌉ : ℤ) : ℝ) ∧
    (∀ a u : ℤ,
      RoomNode.clearance_time
        { room with occupants := { room.occupants with adults := a, unabled := u } } =
        room.clearance_time) ∧
    (room.occupants.children = 0 →
      room.clearance_time = ((⌈room.base_clear_time⌉ : ℤ) : ℝ)) ∧
    (∀ c c' : ℤ, c ≤ c' →
      RoomNode.clearance_time
          { room with occupants := { room.occupants with children := c } } ≤
        RoomNode.clearance_time
          { room with occupants := { room.occupants with children := c' } }) := by
  refine ⟨rfl, fun a u => rfl, fun h0 => ?_, fun c c' hcc => ?_⟩
  · rw [RoomNode.clearance_time, h0]
    norm_num
  · show ((⌈room.base_clear_time + 5 * (c : ℝ)⌉ : ℤ) : ℝ) ≤
      ((⌈room.base_clear_time + 5 * (c' : ℝ)⌉ : ℤ) : ℝ)
    have hc : (c : ℝ) ≤ (c' : ℝ) := by exact_mod_cast hcc
    exact_mod_cast Int.ceil_le_ceil (by push_cast; linarith)

/-- Witness for C6 on the scenario room (base 15, no children): clearance
time 15, and adding children does not decrease it. -/
theorem clearance_time_spec_witness :
    roomA.clearance_time = ((⌈roomA.base_clear_time⌉ : ℤ) : ℝ) ∧
    RoomNode.clearance_time { roomA with occupants := { roomA.occupants with children := 0 } } ≤
      RoomNode.clearance_time { roomA with occupants := { roomA.occupants with children := 3 } } :=
  ⟨(clearance_time_spec roomA).2.2.1 rfl,
   (clearance_time_spec roomA).2.2.2 0 3 (by norm_num)⟩

/-- Claim C8: whenever the unabled count is at most 0, or the speed is at
most 0, or the exit list is empty, the unabled-evacuation model returns
exactly (0, door_position): zero extra time and the position unchanged.  In
particular a second invocation for a room whose unabled count has already
been zeroed (the U = 0 instance) adds no time. -/
theorem unabled_evac_guard (num_unabled : ℤ) (p : Point) (exits : List ExitNode) (s : ℝ)
    (h : num_unabled ≤ 0 ∨ s ≤ 0 ∨ exits = []) :
    _unabled_evac_time num_unabled p exits s = (0, p) := by
  rw [_unabled_evac_time, if_pos h]

/-- Witness for C8 at U = 0 (the already-zeroed second call). -/
theorem unabled_evac_guard_witness :
    _unabled_evac_time 0 ((1 : ℝ), 1) [exitA] 1 = (0, ((1 : ℝ), 1)) :=
  unabled_evac_guard 0 ((1 : ℝ), 1) [exitA] 1 (Or.inl le_rfl)

/-- Claim C9: with a non-positive responder speed, find_fastest_evacuation
fails with the configuration error before the simulation starts: the result
is the error value for every fuel, room list, exit list and start position,
so no loop iteration, room claim, room removal, or unabled-count update ever
happens. -/
theorem speed_guard_error (fuel n : ℕ) (rooms : List RoomNode) (exits : List ExitNode)
    (s : ℝ) (start : Point) (h : s ≤ 0) :
    find_fastest_evacuation fuel n rooms exits s start =
      Except.error "responder_speed must be > 0" := by
  rw [find_fastest_evacuation, if_pos h]

/-- Witness for C9 at speed 0 on the scenario data. -/
theorem speed_guard_error_witness :
    find_fastest_evacuation 3 1 [roomA] [exitA] 0 (0, 0) =
      Except.error "responder_speed must be > 0" :=
  speed_guard_error 3 1 [roomA] [exitA] 0 (0, 0) le_rfl

/-- Claim C2: end-to-end scenario with 1 responder, 1 room of base clearance
15 and two unabled occupants, the door at distance 2 from the start, one
exit at distance 2 from the door, speed 1: the total evacuation time is
2 (travel) + 15 (clearance) + 10 (carrying, (3 times 2 - 1) times 2 / 1)
= 27. -/
theorem scenario_two_unabled_total_27 :
    find_fastest_evacuation 4 1 [roomA] [exitA] 1 (0, 0) = Except.ok (some 27) := by
  rw [find_fastest_evacuation, if_neg (by norm_num)]
  rw [show (4 : ℕ) = 3 + 1 from rfl, simLoop,
    if_neg (show ¬ loopDone (initState 1 [roomA] (0, 0)) by simp [loopDone, initState])]
  rw [scenario_assign1]
  rw [if_neg (show ¬ (List.filter isActive
      ({ remaining := [roomA], responders := [r1], time := 0 } : SimState).responders = []) by
    rw [show List.filter isActive
        ({ remaining := [roomA], responders := [r1], time := 0 } : SimState).responders
        = [r1] from rfl]
    simp)]
  rw [scenario_run1]
  rw [show (3 : ℕ) = 2 + 1 from rfl, simLoop,
    if_neg (show ¬ loopDone { remaining := [roomA], responders := [r2], time := 2 } by
      simp [loopDone])]
  rw [scenario_assign2]
  rw [if_neg (show ¬ (List.filter isActive
      ({ remaining := [roomA], responders := [r2], time := 2 } : SimState).responders = []) by
    rw [show List.filter isActive
        ({ remaining := [roomA], responders := [r2], time := 2 } : SimState).responders
        = [r2] from rfl]
    simp)]
  rw [scenario_run2]
  rw [show (2 : ℕ) = 1 + 1 from rfl, simLoop,
    if_neg (show ¬ loopDone { remaining := [zeroUnabled roomA], responders := [r3], time := 17 } by
      simp [loopDone])]
  rw [scenario_assign3]
  rw [if_neg (show ¬ (List.filter isActive
      ({ remaining := [zeroUnabled roomA], responders := [r3],
          time := 17 } : SimState).responders = []) by
    rw [show List.filter isActive
        ({ remaining := [zeroUnabled roomA], responders := [r3],
            time := 17 } : SimState).responders = [r3] from rfl]
    simp)]
  rw [scenario_run3]
  rw [show (1 : ℕ) = 0 + 1 from rfl, simLoop,
    if_pos (show loopDone { remaining := [], responders := [r4], time := 27 } by
      refine ⟨rfl, ?_⟩
      intro r hr
      simp at hr
      rw [hr, r4])]

/-- Scenario responder at the instant the clearing countdown reaches zero,
standing at the door (2, 0) of the room with two unabled occupants. -/
def r2z : ResponderState :=
  { state := "clearing", time_remaining := 0, position := (2, 0), target_room := some roomA,
    target_door := some (2, 0) }

/-- Counterexample to claim C3: at the clearing to evacuating_unabled
transition the code does update the responder's position at that instant
(shitty_simulation.py line 227 sets it to the evacuation model's final
position, the nearest exit): processing the clearing responder standing at
the door (2, 0) yields a responder standing at (4, 0), not at the door. -/
theorem clearing_transition_moves_position_cex :
    (processResponders [exitA] 1 [r2z] [roomA]).1 = [r3] ∧
    r2z.position = ((2 : ℝ), 0) ∧ r3.position = ((4 : ℝ), 0) ∧
    (((4 : ℝ), 0) : Point) ≠ ((2 : ℝ), 0) := by
  refine ⟨?_, rfl, rfl, by norm_num [Prod.ext_iff]⟩
  norm_num [processResponders, r2z, r3, isActive, roomA, evac_eval, zeroUnabled,
    show (("clearing" : String) = "moving") = False by simp]

/-- Claim C3, amended: at the clearing to evacuating_unabled transition
(countdown at or below tolerance, unabled count positive, at least one
exit), the driver sets the responder's countdown to the evacuation model's
extra_time, and it also immediately sets the responder's position to the
model's final position (the nearest exit) at that same instant, zeroing the
room's unabled count in the responder's target and in the remaining pool;
the position does not stay at the door while the countdown elapses. -/
theorem clearing_to_evac_transition (r : ResponderState) (rest : List ResponderState)
    (remaining : List RoomNode) (exits : List ExitNode) (speed : ℝ) (room : RoomNode)
    (hb : ¬ ((1e-9 : ℝ) < r.time_remaining)) (hst : r.state = "clearing")
    (htr : r.target_room = some room) (hu : 0 < room.occupants.unabled) (hx : exits ≠ []) :
    (processResponders exits speed (r :: rest) remaining).1 =
      { r with
          position := (_unabled_evac_time room.occupants.unabled r.position exits speed).2,
          state := "evacuating_unabled",
          time_remaining := (_unabled_evac_time room.occupants.unabled r.position exits speed).1,
          target_room := some (zeroUnabled room) } ::
        (processResponders exits speed rest
          (remaining.map fun x => if x = room then zeroUnabled room else x)).1 := by
  rw [processResponders, if_neg hb, hst]
  rw [if_neg (by simp)]
  rw [if_pos rfl]
  rw [htr]
  dsimp only
  rw [if_pos ⟨hu, hx⟩]

/-- Witness for the amended C3 at the concrete clearing responder. -/
theorem clearing_to_evac_transition_witness :
    (processResponders [exitA] 1 [r2z] [roomA]).1 =
      { r2z with
          position := (_unabled_evac_time roomA.occupants.unabled r2z.position [exitA] 1).2,
          state := "evacuating_unabled",
          time_remaining := (_unabled_evac_time roomA.occupants.unabled r2z.position [exitA] 1).1,
          target_room := some (zeroUnabled roomA) } ::
        (processResponders [exitA] 1 []
          ([roomA].map fun x => if x = roomA then zeroUnabled roomA else x)).1 :=
  clearing_to_evac_transition r2z [] [roomA] [exitA] 1 roomA (by norm_num [r2z]) rfl rfl
    (by norm_num [roomA]) (by simp)

/-- Counterexample to claim C4: the end state reached by breaking out of the
loop because no responder can ever be assigned (zero responders, one room
remaining) is not distinguishable from the normal all-rooms-cleared end
state: both runs return the identical plain value, with no flag or distinct
result type enumerating unreached rooms. -/
theorem unreachable_end_indistinguishable_cex :
    find_fastest_evacuation 1 0 [roomA] [exitA] 1 (0, 0) = Except.ok (some 0) ∧
    find_fastest_evacuation 1 0 [] [exitA] 1 (0, 0) = Except.ok (some 0) ∧
    find_fastest_evacuation 1 0 [roomA] [exitA] 1 (0, 0) =
      find_fastest_evacuation 1 0 [] [exitA] 1 (0, 0) := by
  have h1 : find_fastest_evacuation 1 0 [roomA] [exitA] 1 (0, 0) = Except.ok (some 0) := by
    rw [find_fastest_evacuation, if_neg (by norm_num)]
    rw [show (1 : ℕ) = 0 + 1 from rfl, simLoop,
      if_neg (show ¬ loopDone (initState 0 [roomA] (0, 0)) by simp [loopDone, initState])]
    rw [if_pos (show List.filter isActive
        (stepAssign 1 (initState 0 [roomA] (0, 0))).responders = [] from rfl)]
    rfl
  have h2 : find_fastest_evacuation 1 0 [] [exitA] 1 (0, 0) = Except.ok (some 0) := by
    rw [find_fastest_evacuation, if_neg (by norm_num)]
    rw [show (1 : ℕ) = 0 + 1 from rfl, simLoop,
      if_pos (show loopDone (initState 0 [] (0, 0)) from
        ⟨rfl, by simp [initState, initResponders]⟩)]
    rfl
  exact ⟨h1, h2, h1.trans h2.symm⟩

/-- Claim C4, amended: when after the assignment pass no responder is active
while rooms remain, the driver does terminate the loop rather than running
forever, but the end state is only the current elapsed time as the same
plain value the normal all-rooms-cleared exit returns; there is no flag,
distinct result type, or enumeration of the unreached rooms. -/
theorem unreachable_rooms_break (exits : List ExitNode) (speed : ℝ) (fuel : ℕ) (st : SimState)
    (hnd : ¬ loopDone st)
    (hact : (stepAssign speed st).responders.filter isActive = []) :
    simLoop exits speed (fuel + 1) st = some st.time := by
  rw [simLoop, if_neg hnd, if_pos hact]
  rfl

/-- Witness for the amended C4: zero responders and one remaining room
terminate at once, returning the plain start time. -/
theorem unreachable_rooms_break_witness :
    simLoop [exitA] 1 1 (initState 0 [roomA] (0, 0)) =
      some (initState 0 [roomA] (0, 0)).time :=
  unreachable_rooms_break [exitA] 1 0 (initState 0 [roomA] (0, 0))
    (by simp [loopDone, initState]) rfl

/-! ### Assignment policy: nearest-candidate characterization (claim C5) -/

def candidatePairs (rooms : List RoomNode) : List (RoomNode × Point) :=
  rooms.flatMap fun room => (doorCandidates room).map fun d => (room, d)

theorem foldl_nested_eq (pos : Point) (rooms : List RoomNode)
    (acc : Option (RoomNode × Point × ℝ)) :
    rooms.foldl (fun acc room => (doorCandidates room).foldl
        (fun a d => updBest pos a (room, d)) acc) acc
      = (candidatePairs rooms).foldl (updBest pos) acc := by
  induction rooms generalizing acc with
  | nil => rfl
  | cons room rs ih =>
    rw [List.foldl_cons, candidatePairs, List.flatMap_cons, List.foldl_append, List.foldl_map]
    rw [ih]
    rfl

theorem doorCandidates_ne_nil (room : RoomNode) : doorCandidates room ≠ [] := by
  unfold doorCandidates
  cases h : room.get_door_positions with
  | nil => simp
  | cons p ps => simp

theorem candidatePairs_ne_nil (rooms : List RoomNode) (h : rooms ≠ []) :
    candidatePairs rooms ≠ [] := by
  cases rooms with
  | nil => exact absurd rfl h
  | cons room rs =>
    rw [candidatePairs, List.flatMap_cons]
    intro hc
    rcases List.append_eq_nil.mp hc with ⟨h1, _⟩
    exact doorCandidates_ne_nil room (List.map_eq_nil_iff.mp h1)

theorem foldl_updBest_from_some (pos : Point) :
    ∀ (l : List (RoomNode × Point)) (rb : RoomNode) (db : Point),
    (l.foldl (updBest pos) (some (rb, db, _distance pos db)) =
        some (rb, db, _distance pos db) ∧
      ∀ c ∈ l, _distance pos db ≤ _distance pos c.2) ∨
    (∃ r d l1 l2, l.foldl (updBest pos) (some (rb, db, _distance pos db)) =
        some (r, d, _distance pos d) ∧
      l = l1 ++ (r, d) :: l2 ∧ _distance pos d < _distance pos db ∧
      (∀ c ∈ l1, _distance pos d < _distance pos c.2) ∧
      (∀ c ∈ l2, _distance pos d ≤ _distance pos c.2)) := by
  intro l
  induction l with
  | nil => intro rb db; left; exact ⟨rfl, by simp⟩
  | cons c l ih =>
    intro rb db
    rw [List.foldl_cons]
    have hupd : updBest pos (some (rb, db, _distance pos db)) c =
        if _distance pos c.2 < _distance pos db then some (c.1, c.2, _distance pos c.2)
        else some (rb, db, _distance pos db) := rfl
    by_cases hlt : _distance pos c.2 < _distance pos db
    · rw [hupd, if_pos hlt]
      rcases ih c.1 c.2 with ⟨heq, hall⟩ | ⟨r, d, l1, l2, heq, hsplit, hdec, h1, h2⟩
      · right
        exact ⟨c.1, c.2, [], l, heq, by simp, hlt, by simp, hall⟩
      · right
        refine ⟨r, d, c :: l1, l2, heq, by rw [hsplit]; rfl, lt_trans hdec hlt, ?_, h2⟩
        intro c' hc'
        rcases List.mem_cons.mp hc' with h | h
        · rw [h]; exact hdec
        · exact h1 c' h
    · rw [hupd, if_neg hlt]
      rcases ih rb db with ⟨heq, hall⟩ | ⟨r, d, l1, l2, heq, hsplit, hdec, h1, h2⟩
      · left
        refine ⟨heq, ?_⟩
        intro c' hc'
        rcases List.mem_cons.mp hc' with h | h
        · rw [h]; exact le_of_not_lt hlt
        · exact hall c' h
      · right
        refine ⟨r, d, c :: l1, l2, heq, by rw [hsplit]; rfl, hdec, ?_, h2⟩
        intro c' hc'
        rcases List.mem_cons.mp hc' with h | h
        · rw [h]; exact lt_of_lt_of_le hdec (le_of_not_lt hlt)
        · exact h1 c' h

theorem foldl_updBest_from_none (pos : Point) (c : RoomNode × Point)
    (l : List (RoomNode × Point)) :
    ∃ r d l1 l2, (c :: l).foldl (updBest pos) none = some (r, d, _distance pos d) ∧
      c :: l = l1 ++ (r, d) :: l2 ∧
      (∀ c' ∈ l1, _distance pos d < _distance pos c'.2) ∧
      (∀ c' ∈ c :: l, _distance pos d ≤ _distance pos c'.2) := by
  rw [List.foldl_cons, show updBest pos none c = some (c.1, c.2, _distance pos c.2) from rfl]
  rcases foldl_updBest_from_some pos l c.1 c.2 with ⟨heq, hall⟩ |
    ⟨r, d, l1, l2, heq, hsplit, hdec, h1, h2⟩
  · refine ⟨c.1, c.2, [], l, heq, by simp, by simp, ?_⟩
    intro c' hc'
    rcases List.mem_cons.mp hc' with h | h
    · rw [h]
    · exact hall c' h
  · refine ⟨r, d, c :: l1, l2, heq, by rw [hsplit]; rfl, ?_, ?_⟩
    · intro c' hc'
      rcases List.mem_cons.mp hc' with h | h
      · rw [h]; exact hdec
      · exact h1 c' h
    · intro c' hc'
      rcases List.mem_cons.mp hc' with h | h
      · rw [h]; exact le_of_lt hdec
      · rw [hsplit] at h
        rcases List.mem_append.mp h with h | h
        · exact le_of_lt (h1 c' h)
        · rcases List.mem_cons.mp h with h | h
          · rw [h]
          · exact h2 c' h


/-- Claim C5: for a positive speed, the assignment policy returns, for a
non-empty candidate list, the room and access point minimizing Euclidean
distance to the responder's position over all candidate pairs (each room's
door positions, or its rectangle center when it has no doors), with ties
broken by first-encountered in iteration order over rooms then doors (every
candidate strictly earlier than the winner is strictly farther), and travel
time distance / speed; for an empty candidate list it returns the
none-triple (none, none, 0).  The embedded policy is a pure function, so it
mutates nothing. -/
theorem choose_nearest_room_spec (responder : ResponderState) (rooms_left : List RoomNode)
    (speed : ℝ) (hs : 0 < speed) :
    (rooms_left = [] → _choose_nearest_room responder rooms_left speed = (none, none, 0)) ∧
    (rooms_left ≠ [] → ∃ room door l1 l2,
      _choose_nearest_room responder rooms_left speed =
        (some room, some door, _distance responder.position door / speed) ∧
      candidatePairs rooms_left = l1 ++ (room, door) :: l2 ∧
      (∀ c ∈ l1, _distance responder.position door < _distance responder.position c.2) ∧
      (∀ c ∈ candidatePairs rooms_left,
        _distance responder.position door ≤ _distance responder.position c.2)) := by
  constructor
  · intro h
    subst h
    rfl
  · intro h
    cases hcp : candidatePairs rooms_left with
    | nil => exact absurd hcp (candidatePairs_ne_nil rooms_left h)
    | cons c l =>
      obtain ⟨r, d, l1, l2, heq, hsplit, h1, h2⟩ := foldl_updBest_from_none
        responder.position c l
      refine ⟨r, d, l1, l2, ?_, hsplit, h1, h2⟩
      rw [_choose_nearest_room, foldl_nested_eq, hcp, heq]
      dsimp only
      rw [if_pos hs]

/-- Witness for C5: the empty-list case and the one-room scenario case. -/
theorem choose_nearest_room_spec_witness :
    _choose_nearest_room r0 [] 1 = (none, none, 0) ∧
    ∃ room door l1 l2,
      _choose_nearest_room r0 [roomA] 1 =
        (some room, some door, _distance r0.position door / 1) ∧
      candidatePairs [roomA] = l1 ++ (room, door) :: l2 ∧
      (∀ c ∈ l1, _distance r0.position door < _distance r0.position c.2) ∧
      (∀ c ∈ candidatePairs [roomA],
        _distance r0.position door ≤ _distance r0.position c.2) :=
  ⟨(choose_nearest_room_spec r0 [] 1 (by norm_num)).1 rfl,
   (choose_nearest_room_spec r0 [roomA] 1 (by norm_num)).2 (by simp)⟩

/-! ### Room-claim invariant of the driver loop (claim C7) -/

/-- A responder's non-idle claim on a room. -/
def claims (r : ResponderState) (room : RoomNode) : Prop :=
  r.state ≠ "idle" ∧ r.target_room = some room

/-- Two responders claim only rooms with different ids. -/
def IdDisjoint (a b : ResponderState) : Prop :=
  ∀ ra rb, claims a ra → claims b rb → ra.id ≠ rb.id

/-- Every responder state tag is one of the four legal tags. -/
def statesValid (resps : List ResponderState) : Prop :=
  ∀ r ∈ resps, r.state = "idle" ∨ r.state = "moving" ∨ r.state = "clearing" ∨
    r.state = "evacuating_unabled"

theorem zeroUnabled_id (r : RoomNode) : (zeroUnabled r).id = r.id := rfl

theorem candidatePairs_fst_mem {rooms : List RoomNode} {x : RoomNode} {y : Point}
    (h : (x, y) ∈ candidatePairs rooms) : x ∈ rooms := by
  rw [candidatePairs, List.mem_flatMap] at h
  obtain ⟨room, hroom, hmem⟩ := h
  rw [List.mem_map] at hmem
  obtain ⟨d, _, hd⟩ := hmem
  injection hd with h1 h2
  rw [← h1]
  exact hroom

theorem choose_some_mem (responder : ResponderState) (rooms_left : List RoomNode) (speed : ℝ)
    (room : RoomNode) (door : Point) (travel : ℝ)
    (h : _choose_nearest_room responder rooms_left speed = (some room, some door, travel)) :
    room ∈ rooms_left := by
  cases hr : rooms_left with
  | nil =>
    rw [hr] at h
    rw [show _choose_nearest_room responder [] speed = (none, none, 0) from rfl] at h
    exact absurd h (by simp)
  | cons a as =>
    subst hr
    cases hcp : candidatePairs (a :: as) with
    | nil => exact absurd hcp (candidatePairs_ne_nil _ (by simp))
    | cons c l =>
      obtain ⟨r', d', l1, l2, heq, hsplit, h1, h2⟩ := foldl_updBest_from_none
        responder.position c l
      rw [_choose_nearest_room, foldl_nested_eq, hcp, heq] at h
      dsimp only at h
      injection h with ha hb
      injection hb with hb hc
      have hmem : (r', d') ∈ candidatePairs (a :: as) := by
        rw [hcp, hsplit]
        exact List.mem_append_right _ (List.mem_cons_self _ _)
      rw [← Option.some.inj ha]
      exact candidatePairs_fst_mem hmem


theorem cons_unchanged_inv (r : ResponderState) (resps : List ResponderState)
    (avail : List RoomNode) (L : List ResponderState)
    (hpw : List.Pairwise IdDisjoint (r :: resps))
    (h1 : ∀ room ∈ avail, ∀ rr ∈ r :: resps, ∀ rc, claims rr rc → rc.id ≠ room.id)
    (hsv : statesValid (r :: resps))
    (hsrc : ∀ r2 ∈ L, ∀ rc, claims r2 rc → (∃ rr ∈ resps, claims rr rc) ∨ rc ∈ avail)
    (hLpw : List.Pairwise IdDisjoint L) (hLsv : statesValid L) :
    (∀ r2 ∈ r :: L, ∀ rc, claims r2 rc → (∃ rr ∈ r :: resps, claims rr rc) ∨ rc ∈ avail) ∧
    List.Pairwise IdDisjoint (r :: L) ∧ statesValid (r :: L) := by
  refine ⟨?_, ?_, ?_⟩
  · intro r2 hr2 rc hc
    rcases List.mem_cons.mp hr2 with h | h
    · rw [h] at hc
      exact Or.inl ⟨r, List.mem_cons_self _ _, hc⟩
    · rcases hsrc r2 h rc hc with ⟨rr, hrr, hcc⟩ | hmem
      · exact Or.inl ⟨rr, List.mem_cons_of_mem _ hrr, hcc⟩
      · exact Or.inr hmem
  · rw [List.pairwise_cons]
    refine ⟨?_, hLpw⟩
    intro b hb ra rb hca hcb
    rcases hsrc b hb rb hcb with ⟨rr, hrr, hcc⟩ | hmem
    · exact (List.pairwise_cons.mp hpw).1 rr hrr ra rb hca hcc
    · exact h1 rb hmem r (List.mem_cons_self _ _) ra hca
  · intro r2 hr2
    rcases List.mem_cons.mp hr2 with h | h
    · rw [h]
      exact hsv r (List.mem_cons_self _ _)
    · exact hLsv r2 h

theorem assignResponders_inv (speed : ℝ) :
    ∀ (resps : List ResponderState) (avail : List RoomNode),
    List.Pairwise IdDisjoint resps →
    (∀ room ∈ avail, ∀ rr ∈ resps, ∀ rc, claims rr rc → rc.id ≠ room.id) →
    (avail.map RoomNode.id).Nodup →
    statesValid resps →
    (∀ r2 ∈ (assignResponders speed resps avail).1, ∀ rc, claims r2 rc →
        (∃ rr ∈ resps, claims rr rc) ∨ rc ∈ avail) ∧
    List.Pairwise IdDisjoint (assignResponders speed resps avail).1 ∧
    statesValid (assignResponders speed resps avail).1 := by
  intro resps
  induction resps with
  | nil =>
    intro avail _ _ _ _
    refine ⟨?_, ?_, ?_⟩
    · intro r2 hr2
      rw [show (assignResponders speed [] avail).1 = [] from rfl] at hr2
      exact absurd hr2 (by simp)
    · rw [show (assignResponders speed [] avail).1 = [] from rfl]
      exact List.Pairwise.nil
    · intro r2 hr2
      rw [show (assignResponders speed [] avail).1 = [] from rfl] at hr2
      exact absurd hr2 (by simp)
  | cons r rest ih =>
    intro avail hpw h1 hnd hsv
    have hpwt : List.Pairwise IdDisjoint rest := (List.pairwise_cons.mp hpw).2
    have h1t : ∀ room ∈ avail, ∀ rr ∈ rest, ∀ rc, claims rr rc → rc.id ≠ room.id :=
      fun room hm rr hrr => h1 room hm rr (List.mem_cons_of_mem _ hrr)
    have hsvt : statesValid rest := fun rr hrr => hsv rr (List.mem_cons_of_mem _ hrr)
    by_cases hguard : r.state = "idle" ∧ avail ≠ []
    · rcases hch : _choose_nearest_room r avail speed with ⟨_ | room, _ | door, tv⟩
      · rw [assignResponders, if_pos hguard, hch]
        dsimp only
        obtain ⟨ihsrc, ihpw, ihsv⟩ := ih avail hpwt h1t hnd hsvt
        exact cons_unchanged_inv r rest avail _ hpw h1 hsv ihsrc ihpw ihsv
      · rw [assignResponders, if_pos hguard, hch]
        dsimp only
        obtain ⟨ihsrc, ihpw, ihsv⟩ := ih avail hpwt h1t hnd hsvt
        exact cons_unchanged_inv r rest avail _ hpw h1 hsv ihsrc ihpw ihsv
      · rw [assignResponders, if_pos hguard, hch]
        dsimp only
        obtain ⟨ihsrc, ihpw, ihsv⟩ := ih avail hpwt h1t hnd hsvt
        exact cons_unchanged_inv r rest avail _ hpw h1 hsv ihsrc ihpw ihsv
      · -- the real assignment: room and door found
        have hroom : room ∈ avail := choose_some_mem r avail speed room door tv hch
        rw [assignResponders, if_pos hguard, hch]
        dsimp only
        set avail2 := avail.filter (fun rm => decide (rm ≠ room)) with havail2
        have hnd2 : (avail2.map RoomNode.id).Nodup :=
          ((List.filter_sublist avail).map RoomNode.id).nodup hnd
        have h1f : ∀ room2 ∈ avail2, ∀ rr ∈ rest, ∀ rc, claims rr rc → rc.id ≠ room2.id :=
          fun room2 hm rr hrr => h1t room2 (List.mem_of_mem_filter hm) rr hrr
        obtain ⟨ihsrc, ihpw, ihsv⟩ := ih avail2 hpwt h1f hnd2 hsvt
        refine ⟨?_, ?_, ?_⟩
        · intro r2 hr2 rc hc
          rcases List.mem_cons.mp hr2 with h | h
          · rw [h] at hc
            have hrc : rc = room := Option.some.inj hc.2.symm
            rw [hrc]
            exact Or.inr hroom
          · rcases ihsrc r2 h rc hc with ⟨rr, hrr, hcc⟩ | hmem
            · exact Or.inl ⟨rr, List.mem_cons_of_mem _ hrr, hcc⟩
            · exact Or.inr (List.mem_of_mem_filter hmem)
        · rw [List.pairwise_cons]
          refine ⟨?_, ihpw⟩
          intro b hb ra rb hca hcb
          have hra : ra = room := Option.some.inj hca.2.symm
          rcases ihsrc b hb rb hcb with ⟨rr, hrr, hcc⟩ | hmem
          · have hne : rb.id ≠ room.id := h1 room hroom rr (List.mem_cons_of_mem _ hrr) rb hcc
            rw [hra]
            exact fun hid => hne hid.symm
          · have hmem' : rb ∈ avail.filter (fun rm => decide (rm ≠ room)) := havail2 ▸ hmem
            have hrbm : rb ∈ avail := List.mem_of_mem_filter hmem'
            have hne : rb ≠ room := by simpa using List.of_mem_filter hmem'
            rw [hra]
            intro hid
            exact hne (List.inj_on_of_nodup_map hnd hrbm hroom hid.symm)
        · intro r2 hr2
          rcases List.mem_cons.mp hr2 with h | h
          · rw [h]
            exact Or.inr (Or.inl rfl)
          · exact ihsv r2 h
    · rw [assignResponders, if_neg hguard]
      dsimp only
      obtain ⟨ihsrc, ihpw, ihsv⟩ := ih avail hpwt h1t hnd hsvt
      exact cons_unchanged_inv r rest avail _ hpw h1 hsv ihsrc ihpw ihsv


theorem processResponders_preserves_mem (exits : List ExitNode) (speed : ℝ) :
    ∀ (resps : List ResponderState) (rem : List RoomNode) (x : RoomNode),
    x ∈ rem → (∀ r ∈ resps, ∀ rc, claims r rc → rc.id ≠ x.id) →
    x ∈ (processResponders exits speed resps rem).2 := by
  intro resps
  induction resps with
  | nil =>
    intro rem x hx _
    rw [show (processResponders exits speed [] rem).2 = rem from rfl]
    exact hx
  | cons r rest ih =>
    intro rem x hx hcl
    have hclt : ∀ r2 ∈ rest, ∀ rc, claims r2 rc → rc.id ≠ x.id :=
      fun r2 hr2 => hcl r2 (List.mem_cons_of_mem _ hr2)
    rw [processResponders]
    by_cases hbusy : (1e-9 : ℝ) < r.time_remaining
    · rw [if_pos hbusy]
      dsimp only
      exact ih rem x hx hclt
    · rw [if_neg hbusy]
      by_cases hmv : r.state = "moving"
      · rw [if_pos hmv]
        dsimp only
        exact ih rem x hx hclt
      · rw [if_neg hmv]
        by_cases hclr : r.state = "clearing"
        · rw [if_pos hclr]
          cases htr : r.target_room with
          | none =>
            dsimp only
            exact ih rem x hx hclt
          | some room =>
            dsimp only
            have hxne : x ≠ room := by
              have hid : room.id ≠ x.id :=
                hcl r (List.mem_cons_self _ _) room ⟨by rw [hclr]; simp, htr⟩
              exact fun he => hid (by rw [he])
            by_cases hev : 0 < room.occupants.unabled ∧ exits ≠ []
            · rw [if_pos hev]
              dsimp only
              exact ih _ x
                (List.mem_map.mpr ⟨x, hx, by rw [if_neg hxne]⟩) hclt
            · rw [if_neg hev]
              dsimp only
              exact ih _ x ((List.mem_erase_of_ne hxne).mpr hx) hclt
        · rw [if_neg hclr]
          by_cases hevs : r.state = "evacuating_unabled"
          · rw [if_pos hevs]
            cases htr : r.target_room with
            | none =>
              dsimp only
              exact ih rem x hx hclt
            | some room =>
              dsimp only
              have hxne : x ≠ room := by
                have hid : room.id ≠ x.id :=
                  hcl r (List.mem_cons_self _ _) room ⟨by rw [hevs]; simp, htr⟩
                exact fun he => hid (by rw [he])
              exact ih _ x ((List.mem_erase_of_ne hxne).mpr hx) hclt
          · rw [if_neg hevs]
            dsimp only
            exact ih rem x hx hclt


theorem process_cons_inv (exits : List ExitNode) (speed : ℝ)
    (r r2 : ResponderState) (rest : List ResponderState) (rem2 : List RoomNode)
    (hpw : List.Pairwise IdDisjoint (r :: rest))
    (hclaim2 : ∀ rc2, claims r2 rc2 → rc2 ∈ rem2 ∧ ∃ rc, claims r rc ∧ rc2.id = rc.id)
    (hst2 : r2.state = "idle" ∨ r2.state = "moving" ∨ r2.state = "clearing" ∨
      r2.state = "evacuating_unabled")
    (ih2 : ∀ r3 ∈ (processResponders exits speed rest rem2).1, ∀ room, claims r3 room →
      room ∈ (processResponders exits speed rest rem2).2)
    (ih3 : List.Pairwise IdDisjoint (processResponders exits speed rest rem2).1)
    (ih4 : statesValid (processResponders exits speed rest rem2).1)
    (ih5 : ∀ r3 ∈ (processResponders exits speed rest rem2).1, ∀ room, claims r3 room →
      ∃ rr ∈ rest, ∃ rc, claims rr rc ∧ room.id = rc.id) :
    (∀ r3 ∈ r2 :: (processResponders exits speed rest rem2).1, ∀ room, claims r3 room →
      room ∈ (processResponders exits speed rest rem2).2) ∧
    List.Pairwise IdDisjoint (r2 :: (processResponders exits speed rest rem2).1) ∧
    statesValid (r2 :: (processResponders exits speed rest rem2).1) ∧
    (∀ r3 ∈ r2 :: (processResponders exits speed rest rem2).1, ∀ room, claims r3 room →
      ∃ rr ∈ r :: rest, ∃ rc, claims rr rc ∧ room.id = rc.id) := by
  refine ⟨?_, ?_, ?_, ?_⟩
  · intro r3 hr3 room hc
    rcases List.mem_cons.mp hr3 with h | h
    · rw [h] at hc
      obtain ⟨hin2, rc, hcrc, hid⟩ := hclaim2 room hc
      apply processResponders_preserves_mem exits speed rest rem2 room hin2
      intro rr hrr rc2 hc2
      have := (List.pairwise_cons.mp hpw).1 rr hrr rc rc2 hcrc hc2
      rw [hid]
      exact fun he => this he.symm |>.elim
    · exact ih2 r3 h room hc
  · rw [List.pairwise_cons]
    refine ⟨?_, ih3⟩
    intro b hb ra rb hca hcb
    obtain ⟨_, rc, hcrc, hid⟩ := hclaim2 ra hca
    obtain ⟨rr, hrr, rc2, hc2, hid2⟩ := ih5 b hb rb hcb
    have hne : rc.id ≠ rc2.id := (List.pairwise_cons.mp hpw).1 rr hrr rc rc2 hcrc hc2
    rw [hid, hid2]
    exact hne
  · intro r3 hr3
    rcases List.mem_cons.mp hr3 with h | h
    · rw [h]
      exact hst2
    · exact ih4 r3 h
  · intro r3 hr3 room hc
    rcases List.mem_cons.mp hr3 with h | h
    · rw [h] at hc
      obtain ⟨_, rc, hcrc, hid⟩ := hclaim2 room hc
      exact ⟨r, List.mem_cons_self _ _, rc, hcrc, hid⟩
    · obtain ⟨rr, hrr, rc, hcrc, hid⟩ := ih5 r3 h room hc
      exact ⟨rr, List.mem_cons_of_mem _ hrr, rc, hcrc, hid⟩


theorem processResponders_inv (exits : List ExitNode) (speed : ℝ) :
    ∀ (resps : List ResponderState) (rem : List RoomNode),
    (rem.map RoomNode.id).Nodup →
    (∀ rr ∈ resps, ∀ room, claims rr room → room ∈ rem) →
    List.Pairwise IdDisjoint resps →
    statesValid resps →
    ((processResponders exits speed resps rem).2.map RoomNode.id).Nodup ∧
    (∀ r3 ∈ (processResponders exits speed resps rem).1, ∀ room, claims r3 room →
      room ∈ (processResponders exits speed resps rem).2) ∧
    List.Pairwise IdDisjoint (processResponders exits speed resps rem).1 ∧
    statesValid (processResponders exits speed resps rem).1 ∧
    (∀ r3 ∈ (processResponders exits speed resps rem).1, ∀ room, claims r3 room →
      ∃ rr ∈ resps, ∃ rc, claims rr rc ∧ room.id = rc.id) := by
  intro resps
  induction resps with
  | nil =>
    intro rem hnd _ _ _
    refine ⟨hnd, ?_, List.Pairwise.nil, ?_, ?_⟩
    · intro r3 hr3
      exact absurd hr3 (by simp [processResponders])
    · intro r3 hr3
      exact absurd hr3 (by simp [processResponders])
    · intro r3 hr3
      exact absurd hr3 (by simp [processResponders])
  | cons r rest ih =>
    intro rem hnd htg hpw hsv
    have hpwt : List.Pairwise IdDisjoint rest := (List.pairwise_cons.mp hpw).2
    have hsvt : statesValid rest := fun rr hrr => hsv rr (List.mem_cons_of_mem _ hrr)
    have htgt : ∀ rr ∈ rest, ∀ room, claims rr room → room ∈ rem :=
      fun rr hrr => htg rr (List.mem_cons_of_mem _ hrr)
    rw [processResponders]
    by_cases hbusy : (1e-9 : ℝ) < r.time_remaining
    · rw [if_pos hbusy]
      dsimp only
      obtain ⟨ih1, ih2, ih3, ih4, ih5⟩ := ih rem hnd htgt hpwt hsvt
      have hcl2 : ∀ rc2, claims r rc2 → rc2 ∈ rem ∧ ∃ rc, claims r rc ∧ rc2.id = rc.id :=
        fun rc2 hc => ⟨htg r (List.mem_cons_self _ _) rc2 hc, rc2, hc, rfl⟩
      obtain ⟨c1, c2, c3, c4⟩ := process_cons_inv exits speed r r rest rem
        hpw hcl2 (hsv r (List.mem_cons_self _ _)) ih2 ih3 ih4 ih5
      exact ⟨ih1, c1, c2, c3, c4⟩
    · rw [if_neg hbusy]
      by_cases hmv : r.state = "moving"
      · rw [if_pos hmv]
        dsimp only
        obtain ⟨ih1, ih2, ih3, ih4, ih5⟩ := ih rem hnd htgt hpwt hsvt
        have hcl2 : ∀ rc2,
            claims
                { r with
                  position := r.target_door.getD r.position,
                  state := "clearing",
                  time_remaining := (r.target_room.map RoomNode.clearance_time).getD 0 }
                rc2 →
            rc2 ∈ rem ∧ ∃ rc, claims r rc ∧ rc2.id = rc.id := by
          intro rc2 hc
          have hcr : claims r rc2 := ⟨by rw [hmv]; simp, hc.2⟩
          exact ⟨htg r (List.mem_cons_self _ _) rc2 hcr, rc2, hcr, rfl⟩
        obtain ⟨c1, c2, c3, c4⟩ := process_cons_inv exits speed r _ rest rem
          hpw hcl2 (Or.inr (Or.inr (Or.inl rfl))) ih2 ih3 ih4 ih5
        exact ⟨ih1, c1, c2, c3, c4⟩
      · rw [if_neg hmv]
        by_cases hclr : r.state = "clearing"
        · rw [if_pos hclr]
          cases htr : r.target_room with
          | none =>
            dsimp only
            obtain ⟨ih1, ih2, ih3, ih4, ih5⟩ := ih rem hnd htgt hpwt hsvt
            have hcl2 : ∀ rc2, claims { r with state := "idle", target_room := none } rc2 →
                rc2 ∈ rem ∧ ∃ rc, claims r rc ∧ rc2.id = rc.id :=
              fun rc2 hc => absurd rfl hc.1
            obtain ⟨c1, c2, c3, c4⟩ := process_cons_inv exits speed r _ rest rem
              hpw hcl2 (Or.inl rfl) ih2 ih3 ih4 ih5
            exact ⟨ih1, c1, c2, c3, c4⟩
          | some room =>
            have hcr : claims r room := ⟨by rw [hclr]; simp, htr⟩
            have hmem : room ∈ rem := htg r (List.mem_cons_self _ _) room hcr
            dsimp only
            by_cases hev : 0 < room.occupants.unabled ∧ exits ≠ []
            · rw [if_pos hev]
              dsimp only
              have hnd2 : ((rem.map fun x => if x = room then zeroUnabled room else x).map
                  RoomNode.id).Nodup := by
                have hids : (rem.map fun x => if x = room then zeroUnabled room else x).map
                    RoomNode.id = rem.map RoomNode.id := by
                  rw [List.map_map]
                  apply List.map_congr_left
                  intro a _
                  by_cases h : a = room
                  · simp [Function.comp, h, zeroUnabled_id]
                  · simp [Function.comp, h]
                rw [hids]
                exact hnd
              have htgt2 : ∀ rr ∈ rest, ∀ room2, claims rr room2 →
                  room2 ∈ rem.map fun x => if x = room then zeroUnabled room else x := by
                intro rr hrr room2 hc2
                have hm2 : room2 ∈ rem := htgt rr hrr room2 hc2
                have hne : room2 ≠ room := by
                  have hid : room.id ≠ room2.id :=
                    (List.pairwise_cons.mp hpw).1 rr hrr room room2 hcr hc2
                  exact fun he => hid (by rw [he])
                exact List.mem_map.mpr ⟨room2, hm2, by rw [if_neg hne]⟩
              obtain ⟨ih1, ih2, ih3, ih4, ih5⟩ := ih _ hnd2 htgt2 hpwt hsvt
              have hcl2 : ∀ rc2,
                  claims
                      { r with
                        position := (_unabled_evac_time room.occupants.unabled r.position
                          exits speed).2,
                        state := "evacuating_unabled",
                        time_remaining := (_unabled_evac_time room.occupants.unabled
                          r.position exits speed).1,
                        target_room := some (zeroUnabled room) }
                      rc2 →
                  rc2 ∈ (rem.map fun x => if x = room then zeroUnabled room else x) ∧
                  ∃ rc, claims r rc ∧ rc2.id = rc.id := by
                intro rc2 hc
                have hrc2 : zeroUnabled room = rc2 := Option.some.inj hc.2
                refine ⟨List.mem_map.mpr ⟨room, hmem, by rw [if_pos rfl, hrc2]⟩,
                  room, hcr, by rw [← hrc2]; rfl⟩
              obtain ⟨c1, c2, c3, c4⟩ := process_cons_inv exits speed r _ rest _
                hpw hcl2 (Or.inr (Or.inr (Or.inr rfl))) ih2 ih3 ih4 ih5
              exact ⟨ih1, c1, c2, c3, c4⟩
            · rw [if_neg hev]
              dsimp only
              have hnd2 : ((rem.erase room).map RoomNode.id).Nodup :=
                ((rem.erase_sublist room).map RoomNode.id).nodup hnd
              have htgt2 : ∀ rr ∈ rest, ∀ room2, claims rr room2 →
                  room2 ∈ rem.erase room := by
                intro rr hrr room2 hc2
                have hm2 : room2 ∈ rem := htgt rr hrr room2 hc2
                have hne : room2 ≠ room := by
                  have hid : room.id ≠ room2.id :=
                    (List.pairwise_cons.mp hpw).1 rr hrr room room2 hcr hc2
                  exact fun he => hid (by rw [he])
                exact (List.mem_erase_of_ne hne).mpr hm2
              obtain ⟨ih1, ih2, ih3, ih4, ih5⟩ := ih _ hnd2 htgt2 hpwt hsvt
              have hcl2 : ∀ rc2,
                  claims
                      { r with
                        state := "idle", time_remaining := 0, target_room := none,
                        target_door := none }
                      rc2 →
                  rc2 ∈ rem.erase room ∧ ∃ rc, claims r rc ∧ rc2.id = rc.id :=
                fun rc2 hc => absurd rfl hc.1
              obtain ⟨c1, c2, c3, c4⟩ := process_cons_inv exits speed r _ rest _
                hpw hcl2 (Or.inl rfl) ih2 ih3 ih4 ih5
              exact ⟨ih1, c1, c2, c3, c4⟩
        · rw [if_neg hclr]
          by_cases hevs : r.state = "evacuating_unabled"
          · rw [if_pos hevs]
            cases htr : r.target_room with
            | none =>
              dsimp only
              obtain ⟨ih1, ih2, ih3, ih4, ih5⟩ := ih rem hnd htgt hpwt hsvt
              have hcl2 : ∀ rc2,
                  claims
                      { r with
                        state := "idle", time_remaining := 0, target_room := none,
                        target_door := none }
                      rc2 →
                  rc2 ∈ rem ∧ ∃ rc, claims r rc ∧ rc2.id = rc.id :=
                fun rc2 hc => absurd rfl hc.1
              obtain ⟨c1, c2, c3, c4⟩ := process_cons_inv exits speed r _ rest rem
                hpw hcl2 (Or.inl rfl) ih2 ih3 ih4 ih5
              exact ⟨ih1, c1, c2, c3, c4⟩
            | some room =>
              dsimp only
              have hcr : claims r room := ⟨by rw [hevs]; simp, htr⟩
              have hmem : room ∈ rem := htg r (List.mem_cons_self _ _) room hcr
              have hnd2 : ((rem.erase room).map RoomNode.id).Nodup :=
                ((rem.erase_sublist room).map RoomNode.id).nodup hnd
              have htgt2 : ∀ rr ∈ rest, ∀ room2, claims rr room2 →
                  room2 ∈ rem.erase room := by
                intro rr hrr room2 hc2
                have hm2 : room2 ∈ rem := htgt rr hrr room2 hc2
                have hne : room2 ≠ room := by
                  have hid : room.id ≠ room2.id :=
                    (List.pairwise_cons.mp hpw).1 rr hrr room room2 hcr hc2
                  exact fun he => hid (by rw [he])
                exact (List.mem_erase_of_ne hne).mpr hm2
              obtain ⟨ih1, ih2, ih3, ih4, ih5⟩ := ih _ hnd2 htgt2 hpwt hsvt
              have hcl2 : ∀ rc2,
                  claims
                      { r with
                        state := "idle", time_remaining := 0, target_room := none,
                        target_door := none }
                      rc2 →
                  rc2 ∈ rem.erase room ∧ ∃ rc, claims r rc ∧ rc2.id = rc.id :=
                fun rc2 hc => absurd rfl hc.1
              obtain ⟨c1, c2, c3, c4⟩ := process_cons_inv exits speed r _ rest _
                hpw hcl2 (Or.inl rfl) ih2 ih3 ih4 ih5
              exact ⟨ih1, c1, c2, c3, c4⟩
          · rw [if_neg hevs]
            dsimp only
            obtain ⟨ih1, ih2, ih3, ih4, ih5⟩ := ih rem hnd htgt hpwt hsvt
            have hidle : r.state = "idle" := by
              rcases hsv r (List.mem_cons_self _ _) with h | h | h | h
              · exact h
              · exact absurd h hmv
              · exact absurd h hclr
              · exact absurd h hevs
            have hcl2 : ∀ rc2, claims r rc2 →
                rc2 ∈ rem ∧ ∃ rc, claims r rc ∧ rc2.id = rc.id :=
              fun rc2 hc => absurd hidle hc.1
            obtain ⟨c1, c2, c3, c4⟩ := process_cons_inv exits speed r r rest rem
              hpw hcl2 (Or.inl hidle) ih2 ih3 ih4 ih5
            exact ⟨ih1, c1, c2, c3, c4⟩


theorem isActive_true_iff (r : ResponderState) :
    isActive r = true ↔
    (r.state = "moving" ∨ r.state = "clearing" ∨ r.state = "evacuating_unabled") := by
  rw [isActive, show (["moving", "clearing", "evacuating_unabled"].contains r.state)
      = (["moving", "clearing", "evacuating_unabled"].elem r.state) from rfl, List.elem_iff]
  simp [eq_comm]

/-- The driver-level invariant carried through every loop iteration:
remaining rooms have pairwise distinct ids, every non-idle responder's
target is still in the remaining pool, claims of distinct responders have
distinct room ids, and every state tag is legal. -/
structure SimInv (st : SimState) : Prop where
  nodup : (st.remaining.map RoomNode.id).Nodup
  targets : ∀ r ∈ st.responders, ∀ room, claims r room → room ∈ st.remaining
  disjoint : List.Pairwise IdDisjoint st.responders
  states : statesValid st.responders

theorem inv_init (n : ℕ) (rooms : List RoomNode) (start : Point)
    (hids : (rooms.map RoomNode.id).Nodup) : SimInv (initState n rooms start) := by
  refine ⟨hids, ?_, ?_, ?_⟩
  · intro r hr room hc
    rw [initState] at hr
    dsimp only at hr
    rw [initResponders] at hr
    have := List.eq_of_mem_replicate hr
    rw [this] at hc
    exact absurd rfl hc.1
  · rw [initState]
    dsimp only
    rw [initResponders]
    induction n with
    | zero => exact List.Pairwise.nil
    | succ m ihm =>
      rw [List.replicate_succ, List.pairwise_cons]
      refine ⟨?_, ihm⟩
      intro b hb ra rb hca _
      exact absurd rfl hca.1
  · intro r hr
    rw [initState] at hr
    dsimp only at hr
    rw [initResponders] at hr
    rw [List.eq_of_mem_replicate hr]
    exact Or.inl rfl

theorem inv_stepAssign (speed : ℝ) (st : SimState) (h : SimInv st) :
    SimInv (stepAssign speed st) ∧ (stepAssign speed st).remaining = st.remaining := by
  have hsub : ∀ room ∈ (st.remaining.filter
      fun room => decide (room ∉ alreadyTaken st.responders)), room ∈ st.remaining :=
    fun room hm => List.mem_of_mem_filter hm
  have h1 : ∀ room ∈ (st.remaining.filter
      fun room => decide (room ∉ alreadyTaken st.responders)),
      ∀ rr ∈ st.responders, ∀ rc, claims rr rc → rc.id ≠ room.id := by
    intro room hm rr hrr rc hc
    have hnotin : room ∉ alreadyTaken st.responders := by
      simpa using List.of_mem_filter hm
    have hact : isActive rr = true := by
      rw [isActive_true_iff]
      rcases h.states rr hrr with hh | hh | hh | hh
      · exact absurd hh hc.1
      · exact Or.inl hh
      · exact Or.inr (Or.inl hh)
      · exact Or.inr (Or.inr hh)
    have htaken : rc ∈ alreadyTaken st.responders := by
      rw [alreadyTaken, List.mem_filterMap]
      exact ⟨rr, hrr, by rw [if_pos hact]; exact hc.2⟩
    intro hid
    have : rc = room := List.inj_on_of_nodup_map h.nodup
      (h.targets rr hrr rc hc) (List.mem_of_mem_filter hm) hid
    rw [this] at htaken
    exact hnotin htaken
  have hnd2 : (((st.remaining.filter
      fun room => decide (room ∉ alreadyTaken st.responders)).map RoomNode.id)).Nodup :=
    ((List.filter_sublist st.remaining).map RoomNode.id).nodup h.nodup
  obtain ⟨hsrc, hpw2, hsv2⟩ := assignResponders_inv speed st.responders _
    h.disjoint h1 hnd2 h.states
  refine ⟨⟨h.nodup, ?_, hpw2, hsv2⟩, rfl⟩
  intro r hr room hc
  rcases hsrc r hr room hc with ⟨rr, hrr, hcc⟩ | hmem
  · exact h.targets rr hrr room hcc
  · exact hsub room hmem

theorem claims_advance (dt : ℝ) (r : ResponderState) (room : RoomNode) :
    claims (if isActive r then { r with time_remaining := r.time_remaining - dt } else r)
      room ↔ claims r room := by
  by_cases h : isActive r
  · rw [if_pos h]
    exact Iff.rfl
  · rw [if_neg h]

theorem state_advance (dt : ℝ) (r : ResponderState) :
    (if isActive r then { r with time_remaining := r.time_remaining - dt } else r).state
      = r.state := by
  by_cases h : isActive r
  · rw [if_pos h]
  · rw [if_neg h]

theorem inv_stepRun (exits : List ExitNode) (speed : ℝ) (st : SimState) (h : SimInv st) :
    SimInv (stepRun exits speed st) := by
  rw [stepRun]
  set dt := minRemaining (st.responders.filter isActive) with hdt
  set adv := st.responders.map (fun r =>
    if isActive r then { r with time_remaining := r.time_remaining - dt } else r) with hadv
  have htg : ∀ rr ∈ adv, ∀ room, claims rr room → room ∈ st.remaining := by
    intro rr hrr room hc
    rw [hadv] at hrr
    obtain ⟨r, hr, hfr⟩ := List.mem_map.mp hrr
    rw [← hfr] at hc
    exact h.targets r hr room ((claims_advance dt r room).mp hc)
  have hpw : List.Pairwise IdDisjoint adv := by
    rw [hadv, List.pairwise_map]
    apply h.disjoint.imp_of_mem
    intro a b _ _ hab ra rb hca hcb
    exact hab ra rb ((claims_advance dt a ra).mp hca) ((claims_advance dt b rb).mp hcb)
  have hsv : statesValid adv := by
    intro rr hrr
    rw [hadv] at hrr
    obtain ⟨r, hr, hfr⟩ := List.mem_map.mp hrr
    rw [← hfr, state_advance]
    exact h.states r hr
  obtain ⟨c1, c2, c3, c4, _⟩ := processResponders_inv exits speed adv st.remaining
    h.nodup htg hpw hsv
  exact ⟨c1, c2, c3, c4⟩

theorem inv_stepSim (exits : List ExitNode) (speed : ℝ) (st : SimState) (h : SimInv st) :
    SimInv (stepSim exits speed st) := by
  rw [stepSim]
  by_cases hd : loopDone st
  · rw [if_pos hd]
    exact h
  · rw [if_neg hd]
    by_cases ha : (stepAssign speed st).responders.filter isActive = []
    · rw [if_pos ha]
      exact (inv_stepAssign speed st h).1
    · rw [if_neg ha]
      exact inv_stepRun exits speed _ (inv_stepAssign speed st h).1

theorem inv_iterate (exits : List ExitNode) (speed : ℝ) (st : SimState) (h : SimInv st)
    (n : ℕ) : SimInv ((stepSim exits speed)^[n] st) := by
  induction n with
  | zero => exact h
  | succ m ihm =>
    rw [Function.iterate_succ_apply']
    exact inv_stepSim exits speed _ ihm


/-- Two responders never hold non-idle claims on the same room. -/
def NoDoubleClaim (resps : List ResponderState) : Prop :=
  List.Pairwise (fun a b => ∀ ra rb, claims a ra → claims b rb → ra ≠ rb) resps

theorem noDoubleClaim_of_disjoint {resps : List ResponderState}
    (h : List.Pairwise IdDisjoint resps) : NoDoubleClaim resps :=
  h.imp (fun hab ra rb hca hcb he => hab ra rb hca hcb (by rw [he]))

/-- Claim C7: at every point of the simulation loop, at most one responder
holds a non-idle reference to any given room (given distinct room ids, as in
every scenario of the repository): for any two distinct responders, the
rooms they target while non-idle differ, both after every whole loop
iteration and immediately after the assignment sub-pass, so two idle
responders assigned in the same pass never claim the same room. -/
theorem room_claim_invariant (fuel n : ℕ) (rooms : List RoomNode) (exits : List ExitNode)
    (speed : ℝ) (start : Point) (hids : (rooms.map RoomNode.id).Nodup) :
    NoDoubleClaim ((stepSim exits speed)^[fuel] (initState n rooms start)).responders ∧
    NoDoubleClaim
      (stepAssign speed
        ((stepSim exits speed)^[fuel] (initState n rooms start))).responders := by
  have hinv := inv_iterate exits speed _ (inv_init n rooms start hids) fuel
  exact ⟨noDoubleClaim_of_disjoint hinv.disjoint,
    noDoubleClaim_of_disjoint ((inv_stepAssign speed _ hinv).1).disjoint⟩

/-- Witness for C7 on the one-room scenario after one loop iteration. -/
theorem room_claim_invariant_witness :
    NoDoubleClaim ((stepSim [exitA] 1)^[1] (initState 1 [roomA] (0, 0))).responders ∧
    NoDoubleClaim
      (stepAssign 1 ((stepSim [exitA] 1)^[1] (initState 1 [roomA] (0, 0)))).responders :=
  room_claim_invariant 1 1 [roomA] [exitA] 1 (0, 0) (by simp [roomA])

/-! ### Frame property of the driver on the room data (claim C10) -/

theorem zeroUnabled_idem (r : RoomNode) : zeroUnabled (zeroUnabled r) = zeroUnabled r := rfl

/-- x is one of the rooms in the given pool, possibly with its unabled count
zeroed (and nothing else changed). -/
def OrigRoom (rooms : List RoomNode) (x : RoomNode) : Prop :=
  ∃ r ∈ rooms, x = r ∨ x = zeroUnabled r

theorem origRoom_trans {rem : List RoomNode} {x y2 : RoomNode}
    (h1 : x = y2 ∨ x = zeroUnabled y2) (h2 : OrigRoom rem y2) : OrigRoom rem x := by
  obtain ⟨y, hy, h3⟩ := h2
  refine ⟨y, hy, ?_⟩
  rcases h1 with h1 | h1 <;> rcases h3 with h3 | h3
  · rw [h1, h3]
    exact Or.inl rfl
  · rw [h1, h3]
    exact Or.inr rfl
  · rw [h1, h3]
    exact Or.inr rfl
  · rw [h1, h3, zeroUnabled_idem]
    exact Or.inr rfl

theorem assignResponders_targets (speed : ℝ) :
    ∀ (resps : List ResponderState) (avail : List RoomNode),
    ∀ r2 ∈ (assignResponders speed resps avail).1, ∀ x, r2.target_room = some x →
      (∃ r ∈ resps, r.target_room = some x) ∨ x ∈ avail := by
  intro resps
  induction resps with
  | nil =>
    intro avail r2 hr2
    exact absurd hr2 (by simp [assignResponders])
  | cons r rest ih =>
    intro avail r2 hr2 x hx
    by_cases hguard : r.state = "idle" ∧ avail ≠ []
    · rcases hch : _choose_nearest_room r avail speed with ⟨_ | room, _ | door, tv⟩ <;>
        rw [assignResponders, if_pos hguard, hch] at hr2 <;> dsimp only at hr2
      · rcases List.mem_cons.mp hr2 with h | h
        · rw [h] at hx
          exact Or.inl ⟨r, List.mem_cons_self _ _, hx⟩
        · rcases ih avail r2 h x hx with ⟨rr, hrr, hcc⟩ | hm
          · exact Or.inl ⟨rr, List.mem_cons_of_mem _ hrr, hcc⟩
          · exact Or.inr hm
      · rcases List.mem_cons.mp hr2 with h | h
        · rw [h] at hx
          exact Or.inl ⟨r, List.mem_cons_self _ _, hx⟩
        · rcases ih avail r2 h x hx with ⟨rr, hrr, hcc⟩ | hm
          · exact Or.inl ⟨rr, List.mem_cons_of_mem _ hrr, hcc⟩
          · exact Or.inr hm
      · rcases List.mem_cons.mp hr2 with h | h
        · rw [h] at hx
          exact Or.inl ⟨r, List.mem_cons_self _ _, hx⟩
        · rcases ih avail r2 h x hx with ⟨rr, hrr, hcc⟩ | hm
          · exact Or.inl ⟨rr, List.mem_cons_of_mem _ hrr, hcc⟩
          · exact Or.inr hm
      · rcases List.mem_cons.mp hr2 with h | h
        · rw [h] at hx
          have : x = room := Option.some.inj hx.symm
          have hroom : room ∈ avail := choose_some_mem r avail speed room door tv hch
          rw [this]
          exact Or.inr hroom
        · rcases ih _ r2 h x hx with ⟨rr, hrr, hcc⟩ | hm
          · exact Or.inl ⟨rr, List.mem_cons_of_mem _ hrr, hcc⟩
          · exact Or.inr (List.mem_of_mem_filter hm)
    · rw [assignResponders, if_neg hguard] at hr2
      dsimp only at hr2
      rcases List.mem_cons.mp hr2 with h | h
      · rw [h] at hx
        exact Or.inl ⟨r, List.mem_cons_self _ _, hx⟩
      · rcases ih avail r2 h x hx with ⟨rr, hrr, hcc⟩ | hm
        · exact Or.inl ⟨rr, List.mem_cons_of_mem _ hrr, hcc⟩
        · exact Or.inr hm


theorem process_cons_frame (exits : List ExitNode) (speed : ℝ)
    (r r2 : ResponderState) (rest : List ResponderState) (rem rem2 : List RoomNode)
    (hstep : ∀ y2 ∈ rem2, ∃ y ∈ rem, y2 = y ∨ y2 = zeroUnabled y)
    (htgt : ∀ x, r2.target_room = some x →
      ∃ y, r.target_room = some y ∧ (x = y ∨ x = zeroUnabled y))
    (ih1 : ∀ r3 ∈ (processResponders exits speed rest rem2).1, ∀ x,
      r3.target_room = some x →
      ∃ rr ∈ rest, ∃ y, rr.target_room = some y ∧ (x = y ∨ x = zeroUnabled y))
    (ih2 : ∀ x ∈ (processResponders exits speed rest rem2).2,
      ∃ y2 ∈ rem2, x = y2 ∨ x = zeroUnabled y2) :
    (∀ r3 ∈ r2 :: (processResponders exits speed rest rem2).1, ∀ x,
      r3.target_room = some x →
      ∃ rr ∈ r :: rest, ∃ y, rr.target_room = some y ∧ (x = y ∨ x = zeroUnabled y)) ∧
    (∀ x ∈ (processResponders exits speed rest rem2).2,
      ∃ y ∈ rem, x = y ∨ x = zeroUnabled y) := by
  constructor
  · intro r3 hr3 x hx
    rcases List.mem_cons.mp hr3 with h | h
    · rw [h] at hx
      obtain ⟨y, hy, hxy⟩ := htgt x hx
      exact ⟨r, List.mem_cons_self _ _, y, hy, hxy⟩
    · obtain ⟨rr, hrr, y, hy, hxy⟩ := ih1 r3 h x hx
      exact ⟨rr, List.mem_cons_of_mem _ hrr, y, hy, hxy⟩
  · intro x hx
    obtain ⟨y2, hy2, hxy⟩ := ih2 x hx
    exact origRoom_trans hxy (hstep y2 hy2)

theorem processResponders_frame (exits : List ExitNode) (speed : ℝ) :
    ∀ (resps : List ResponderState) (rem : List RoomNode),
    (∀ r3 ∈ (processResponders exits speed resps rem).1, ∀ x, r3.target_room = some x →
      ∃ rr ∈ resps, ∃ y, rr.target_room = some y ∧ (x = y ∨ x = zeroUnabled y)) ∧
    (∀ x ∈ (processResponders exits speed resps rem).2,
      ∃ y ∈ rem, x = y ∨ x = zeroUnabled y) := by
  intro resps
  induction resps with
  | nil =>
    intro rem
    constructor
    · intro r3 hr3
      exact absurd hr3 (by simp [processResponders])
    · intro x hx
      rw [show (processResponders exits speed [] rem).2 = rem from rfl] at hx
      exact ⟨x, hx, Or.inl rfl⟩
  | cons r rest ih =>
    intro rem
    have hid : ∀ y2 ∈ rem, ∃ y ∈ rem, y2 = y ∨ y2 = zeroUnabled y :=
      fun y2 hy => ⟨y2, hy, Or.inl rfl⟩
    have hkeep : ∀ x, r.target_room = some x →
        ∃ y, r.target_room = some y ∧ (x = y ∨ x = zeroUnabled y) :=
      fun x hx => ⟨x, hx, Or.inl rfl⟩
    rw [processResponders]
    by_cases hbusy : (1e-9 : ℝ) < r.time_remaining
    · rw [if_pos hbusy]
      dsimp only
      exact process_cons_frame exits speed r r rest rem rem hid hkeep (ih rem).1 (ih rem).2
    · rw [if_neg hbusy]
      by_cases hmv : r.state = "moving"
      · rw [if_pos hmv]
        dsimp only
        exact process_cons_frame exits speed r _ rest rem rem hid hkeep (ih rem).1 (ih rem).2
      · rw [if_neg hmv]
        by_cases hclr : r.state = "clearing"
        · rw [if_pos hclr]
          cases htr : r.target_room with
          | none =>
            dsimp only
            exact process_cons_frame exits speed r _ rest rem rem hid
              (fun x hx => absurd hx (by simp)) (ih rem).1 (ih rem).2
          | some room =>
            dsimp only
            by_cases hev : 0 < room.occupants.unabled ∧ exits ≠ []
            · rw [if_pos hev]
              dsimp only
              refine process_cons_frame exits speed r _ rest rem _ ?_ ?_ (ih _).1 (ih _).2
              · intro y2 hy2
                obtain ⟨y, hy, hfy⟩ := List.mem_map.mp hy2
                by_cases h : y = room
                · rw [← hfy, if_pos h]
                  exact ⟨room, h ▸ hy, Or.inr rfl⟩
                · rw [← hfy, if_neg h]
                  exact ⟨y, hy, Or.inl rfl⟩
              · intro x hx
                have hzx : zeroUnabled room = x := Option.some.inj hx
                exact ⟨room, htr, by rw [← hzx]; exact Or.inr rfl⟩
            · rw [if_neg hev]
              dsimp only
              exact process_cons_frame exits speed r _ rest rem _
                (fun y2 hy2 => ⟨y2, List.mem_of_mem_erase hy2, Or.inl rfl⟩)
                (fun x hx => absurd hx (by simp)) (ih _).1 (ih _).2
        · rw [if_neg hclr]
          by_cases hevs : r.state = "evacuating_unabled"
          · rw [if_pos hevs]
            cases htr : r.target_room with
            | none =>
              dsimp only
              exact process_cons_frame exits speed r _ rest rem rem hid
                (fun x hx => absurd hx (by simp)) (ih rem).1 (ih rem).2
            | some room =>
              dsimp only
              exact process_cons_frame exits speed r _ rest rem _
                (fun y2 hy2 => ⟨y2, List.mem_of_mem_erase hy2, Or.inl rfl⟩)
                (fun x hx => absurd hx (by simp)) (ih _).1 (ih _).2
          · rw [if_neg hevs]
            dsimp only
            exact process_cons_frame exits speed r r rest rem rem hid hkeep
              (ih rem).1 (ih rem).2


/-- The frame invariant for claim C10: every room value in the state comes
from the caller's list, at most with its unabled count zeroed. -/
def FrameInv (rooms : List RoomNode) (st : SimState) : Prop :=
  (∀ x ∈ st.remaining, OrigRoom rooms x) ∧
  (∀ r ∈ st.responders, ∀ x, r.target_room = some x → OrigRoom rooms x)

theorem frameInv_init (n : ℕ) (rooms : List RoomNode) (start : Point) :
    FrameInv rooms (initState n rooms start) := by
  constructor
  · intro x hx
    exact ⟨x, hx, Or.inl rfl⟩
  · intro r hr x hx
    rw [initState] at hr
    dsimp only at hr
    rw [initResponders] at hr
    rw [List.eq_of_mem_replicate hr] at hx
    exact absurd hx (by simp)

theorem frameInv_stepAssign (speed : ℝ) (rooms : List RoomNode) (st : SimState)
    (h : FrameInv rooms st) : FrameInv rooms (stepAssign speed st) := by
  constructor
  · exact h.1
  · intro r hr x hx
    rcases assignResponders_targets speed st.responders _ r hr x hx with ⟨rr, hrr, hcc⟩ | hm
    · exact h.2 rr hrr x hcc
    · exact h.1 x (List.mem_of_mem_filter hm)

theorem frameInv_stepRun (exits : List ExitNode) (speed : ℝ) (rooms : List RoomNode)
    (st : SimState) (h : FrameInv rooms st) : FrameInv rooms (stepRun exits speed st) := by
  rw [stepRun]
  constructor
  · intro x hx
    obtain ⟨y, hy, hxy⟩ := (processResponders_frame exits speed _ st.remaining).2 x hx
    exact origRoom_trans hxy (h.1 y hy)
  · intro r hr x hx
    obtain ⟨rr, hrr, y, hy, hxy⟩ :=
      (processResponders_frame exits speed _ st.remaining).1 r hr x hx
    obtain ⟨rr0, hr0, hfr⟩ := List.mem_map.mp hrr
    have htr : rr0.target_room = some y := by
      rw [← hfr] at hy
      by_cases hia : isActive rr0
      · rw [if_pos hia] at hy
        exact hy
      · rw [if_neg hia] at hy
        exact hy
    exact origRoom_trans hxy (h.2 rr0 hr0 y htr)

theorem frameInv_stepSim (exits : List ExitNode) (speed : ℝ) (rooms : List RoomNode)
    (st : SimState) (h : FrameInv rooms st) : FrameInv rooms (stepSim exits speed st) := by
  rw [stepSim]
  by_cases hd : loopDone st
  · rw [if_pos hd]
    exact h
  · rw [if_neg hd]
    by_cases ha : (stepAssign speed st).responders.filter isActive = []
    · rw [if_pos ha]
      exact frameInv_stepAssign speed rooms st h
    · rw [if_neg ha]
      exact frameInv_stepRun exits speed rooms _ (frameInv_stepAssign speed rooms st h)

theorem frameInv_iterate (exits : List ExitNode) (speed : ℝ) (rooms : List RoomNode)
    (st : SimState) (h : FrameInv rooms st) (n : ℕ) :
    FrameInv rooms ((stepSim exits speed)^[n] st) := by
  induction n with
  | zero => exact h
  | succ m ihm =>
    rw [Function.iterate_succ_apply']
    exact frameInv_stepSim exits speed rooms _ ihm

/-- All fields of x agree with some caller's room except possibly the
unabled count, which is either the original one or zero. -/
def RoomPreserved (rooms : List RoomNode) (x : RoomNode) : Prop :=
  ∃ r ∈ rooms, x.id = r.id ∧ x.base_clear_time = r.base_clear_time ∧
    x.occupants.adults = r.occupants.adults ∧
    x.occupants.children = r.occupants.children ∧
    x.doors = r.doors ∧ x.shape = r.shape ∧
    (x.occupants.unabled = r.occupants.unabled ∨ x.occupants.unabled = 0)

theorem roomPreserved_of_orig {rooms : List RoomNode} {x : RoomNode}
    (h : OrigRoom rooms x) : RoomPreserved rooms x := by
  obtain ⟨r, hr, hx⟩ := h
  rcases hx with hx | hx
  · exact ⟨r, hr, by rw [hx], by rw [hx], by rw [hx], by rw [hx], by rw [hx], by rw [hx],
      Or.inl (by rw [hx])⟩
  · exact ⟨r, hr, by rw [hx]; rfl, by rw [hx]; rfl, by rw [hx]; rfl, by rw [hx]; rfl,
      by rw [hx]; rfl, by rw [hx]; rfl, Or.inr (by rw [hx]; rfl)⟩

/-- Claim C10: the driver iterates over a private copy of the caller's rooms
list and passes the exits list around read-only; the only room field it ever
changes is the unabled occupant count, which is only ever set to zero.  In
every state reachable from the initial one, every room in the remaining pool
and every responder target keeps its id, base clearance duration, adult
count, child count, door list and shape, and its unabled count is either the
original one or zero. -/
theorem rooms_frame_property (fuel n : ℕ) (rooms : List RoomNode) (exits : List ExitNode)
    (speed : ℝ) (start : Point) :
    (∀ x ∈ ((stepSim exits speed)^[fuel] (initState n rooms start)).remaining,
      RoomPreserved rooms x) ∧
    (∀ r ∈ ((stepSim exits speed)^[fuel] (initState n rooms start)).responders,
      ∀ x, r.target_room = some x → RoomPreserved rooms x) := by
  have hinv := frameInv_iterate exits speed rooms _ (frameInv_init n rooms start) fuel
  exact ⟨fun x hx => roomPreserved_of_orig (hinv.1 x hx),
    fun r hr x hx => roomPreserved_of_orig (hinv.2 r hr x hx)⟩

/-- Witness for C10 at the initial state of the one-room scenario. -/
theorem rooms_frame_property_witness : RoomPreserved [roomA] roomA :=
  (rooms_frame_property 0 1 [roomA] [exitA] 1 (0, 0)).1 roomA (by simp [initState])

end
